import Mathlib

/-!
# Verification of the tbox POSIX process module

Shallow embedding of `src/tbox/platform/posix/process.c` (child-process
spawning, command tokenization and `waitpid`-based reaping of the tbox
library).  System calls are modelled by oracles: a trace function gives the
outcome of each successive `waitpid` call, and a clock function gives the
successive `tb_mclock()` readings observed by the polling loops.
-/

set_option autoImplicit false

namespace Tbox

/-! ### OS wait-status words

The code inspects `waitpid` status words through the glibc macros
`WIFEXITED` and `WEXITSTATUS`, and passes the option bits `WNOHANG` and
`WUNTRACED`.  We embed the Linux encoding of the status word: a normal exit
with code `c` yields the word `(c % 256) * 256`, termination by signal `s`
yields the word `s` (low 7 bits nonzero), and a job-control stop by signal
`s` yields the word `s * 256 + 127`. -/

/-- The `WNOHANG` option bit of `waitpid` (Linux value 1). -/
def WNOHANG : Nat := 1

/-- The `WUNTRACED` option bit of `waitpid` (Linux value 2). -/
def WUNTRACED : Nat := 2

/-- glibc `WIFEXITED`: the low 7 bits of the status word are zero. -/
def wifexited (w : Nat) : Bool := w % 128 == 0

/-- glibc `WEXITSTATUS`: bits 8..15 of the status word. -/
def wexitstatus (w : Nat) : Nat := w / 256 % 256

/-- glibc `WIFSTOPPED`: the low 8 bits of the status word are `0x7f`. -/
def wifstopped (w : Nat) : Bool := w % 256 == 127

/-- Status word produced by the OS for a child that exits normally with the
given exit code (only the low 8 bits of the code survive). -/
def wstatus_of_exit (code : Nat) : Nat := code % 256 * 256

/-- Status word produced by the OS for a child terminated by a signal: the
word is the signal number itself (possibly with the core-dump bit 0x80). -/
def wstatus_of_signal (sig : Nat) : Nat := sig

/-- Status word produced by the OS for a child stopped by a signal (reported
by `waitpid` only when `WUNTRACED` is passed). -/
def wstatus_of_stopped (sig : Nat) : Nat := sig % 256 * 256 + 127

/-- Lines 665 and 713 of `process.c`:
`WIFEXITED(status)? WEXITSTATUS(status) : -1`. -/
def reap_status (w : Nat) : Int := if wifexited w then (wexitstatus w : Int) else -1

/-! ### The wait engine (`tb_process_wait`, lines 627-684)

The loop polls `waitpid(pid, &status, timeout < 0 ? 0 : WNOHANG|WUNTRACED)`.
Each call either fails (`-1`), reports no state change (`0`, only possible in
the non-blocking mode), or reaps a status word.  The oracle `trace k` gives
the outcome of the `k`-th `waitpid` call of the loop; `clock 0` is the
initial `tb_mclock()` reading (`time`) and `clock (k + 1)` the reading at the
`k`-th evaluation of the `while` condition.  The coroutine branch
(lines 633-643) is compiled out in the micro/non-coroutine configuration and
is outside this model. -/

/-- Outcome of one `waitpid(pid, ...)` call as seen by `tb_process_wait`. -/
inductive Reap where
  | err
  | notReady
  | reaped (w : Nat)
deriving DecidableEq

/-- Observable result of one `tb_process_wait` call: the return value, what
was stored through `pstatus`, the handle's `pid` field after the call, the
number of `waitpid` calls made, and the list of `tb_msleep` durations. -/
structure WaitRun where
  ret : Int
  pstatus : Option Int
  pid : Int
  attempts : Nat
  sleeps : List Int
deriving DecidableEq

/-- Line 652: the option word passed to `waitpid`,
`timeout < 0 ? 0 : WNOHANG | WUNTRACED`. -/
def wait_options (timeout : Int) : Nat :=
  if timeout < 0 then 0 else WNOHANG + WUNTRACED

/-- The do/while polling loop of `tb_process_wait` (lines 646-680), with an
explicit fuel bound on the number of iterations that can be unfolded. -/
def tb_process_wait_go (trace : Nat → Reap) (clock : Nat → Int) (timeout : Int)
    (pid : Int) : Nat → Nat → Option WaitRun
  | 0, _ => none
  | fuel + 1, k =>
    match trace k with
    | .err => some ⟨-1, none, pid, k + 1, []⟩
    | .reaped w => some ⟨1, some (reap_status w), 0, k + 1, []⟩
    | .notReady =>
      if 0 < timeout ∧ clock (k + 1) - clock 0 < timeout then
        match tb_process_wait_go trace clock timeout pid fuel (k + 1) with
        | none => none
        | some r =>
          some ⟨r.ret, r.pstatus, r.pid, r.attempts,
            (if 0 < timeout then [min timeout 60] else []) ++ r.sleeps⟩
      else some ⟨0, none, pid, k + 1, if 0 < timeout then [min timeout 60] else []⟩

/-- Entry point `tb_process_wait` (non-coroutine path): run the polling loop from the
first `waitpid` call. -/
def tb_process_wait (trace : Nat → Reap) (clock : Nat → Int) (timeout : Int)
    (pid : Int) (fuel : Nat) : Option WaitRun :=
  tb_process_wait_go trace clock timeout pid fuel 0

/-! ### The wait-list engine (`tb_process_waitlist`, lines 685-756)

The loop polls `waitpid(-1, &status, timeout < 0 ? 0 : WNOHANG|WUNTRACED)`,
so a reap outcome also carries the pid of whichever child the OS reaped.
The caller's array of handles is null-terminated; we model it as a list of
`Option Int` (the handles' pid fields), where `none` is the null entry. -/

/-- Outcome of one `waitpid(-1, ...)` call as seen by `tb_process_waitlist`. -/
inductive SysReap where
  | err
  | notReady
  | reaped (pid : Int) (w : Nat)
deriving DecidableEq

/-- One record written to `infolist`: the index of the matched handle in the
caller's array, the matched handle's pid, and the mapped exit status. -/
structure WaitInfo where
  index : Nat
  pid : Int
  status : Int
deriving DecidableEq

/-- Observable result of one `tb_process_waitlist` call.  `procsAfter` is
the caller's handle array (each handle's pid field) after the call. -/
structure WaitlistRun where
  ret : Int
  infos : List WaitInfo
  attempts : Nat
  sleeps : List Int
  procsAfter : List (Option Int)
deriving DecidableEq

/-- Lines 704-705 and 727-728: the linear scan
`for (; *pprocess && (*pprocess)->pid != result; pprocess++)`, which stops
at the first null entry or the first handle whose pid equals `result`. -/
def waitlist_find_go : List (Option Int) → Int → Nat → Option Nat
  | [], _, _ => none
  | none :: _, _, _ => none
  | some p :: rest, r, i => if p = r then some i else waitlist_find_go rest r (i + 1)

/-- The scan started at index 0 of the caller's array. -/
def waitlist_find (processes : List (Option Int)) (r : Int) : Option Nat :=
  waitlist_find_go processes r 0

/-- The inner drain loop (lines 717-740): while fewer than `infomaxn`
records are filled, call `waitpid(-1, WNOHANG|WUNTRACED)` again; stop on
result 0; record a match; stop on a reap that matches no handle (the reap
event is discarded).  A failing call returns -1, which passes the
`result != 0` check and is then looked up (and never matches a live
handle).  The first component is the list of records appended, the second
the index of the next unconsumed `waitpid` outcome. -/
def waitlist_drain (processes : List (Option Int)) (trace : Nat → SysReap) :
    Nat → Nat → List WaitInfo × Nat
  | 0, k => ([], k)
  | remaining + 1, k =>
    match trace k with
    | .notReady => ([], k + 1)
    | .err =>
      match waitlist_find processes (-1) with
      | some i =>
        let rest := waitlist_drain processes trace remaining (k + 1)
        (⟨i, -1, -1⟩ :: rest.1, rest.2)
      | none => ([], k + 1)
    | .reaped p w =>
      match waitlist_find processes p with
      | some i =>
        let rest := waitlist_drain processes trace remaining (k + 1)
        (⟨i, p, reap_status w⟩ :: rest.1, rest.2)
      | none => ([], k + 1)

/-- The outer do/while polling loop of `tb_process_waitlist`
(lines 691-752).  A failing `waitpid` returns -1 at once (line 698); a reap
matching a handle records it, drains further ready children with capacity
`infomaxn - 1`, and returns; a reap matching no handle (or no reapable
child) falls through to the sleep and the `while` condition.  No branch of
the function writes to any handle, so the handle array is returned
unchanged. -/
def tb_process_waitlist_go (processes : List (Option Int)) (trace : Nat → SysReap)
    (clock : Nat → Int) (timeout : Int) (infomaxn : Nat) :
    Nat → Nat → Option WaitlistRun
  | 0, _ => none
  | fuel + 1, k =>
    match trace k with
    | .err => some ⟨-1, [], k + 1, [], processes⟩
    | .reaped p w =>
      match waitlist_find processes p with
      | some i =>
        let drained := waitlist_drain processes trace (infomaxn - 1) (k + 1)
        some ⟨(1 + drained.1.length : Nat), ⟨i, p, reap_status w⟩ :: drained.1,
          drained.2, [], processes⟩
      | none =>
        if 0 < timeout ∧ clock (k + 1) - clock 0 < timeout then
          match tb_process_waitlist_go processes trace clock timeout infomaxn fuel (k + 1) with
          | none => none
          | some r =>
            some ⟨r.ret, r.infos, r.attempts,
              (if 0 < timeout then [min timeout 60] else []) ++ r.sleeps, r.procsAfter⟩
        else some ⟨0, [], k + 1, if 0 < timeout then [min timeout 60] else [], processes⟩
    | .notReady =>
      if 0 < timeout ∧ clock (k + 1) - clock 0 < timeout then
        match tb_process_waitlist_go processes trace clock timeout infomaxn fuel (k + 1) with
        | none => none
        | some r =>
          some ⟨r.ret, r.infos, r.attempts,
            (if 0 < timeout then [min timeout 60] else []) ++ r.sleeps, r.procsAfter⟩
      else some ⟨0, [], k + 1, if 0 < timeout then [min timeout 60] else [], processes⟩

/-- The circumstances under which the drain loop gives up on an outcome:
no child was immediately reapable, or the reaped id (or the -1 of a failed
call) matches no handle in the caller's set. -/
def drain_stops (processes : List (Option Int)) (o : SysReap) : Prop :=
  match o with
  | SysReap.notReady => True
  | SysReap.err => waitlist_find processes (-1) = none
  | SysReap.reaped q _ => waitlist_find processes q = none

/-- Entry point `tb_process_waitlist`: the entry guard (line 688) rejects a zero
`infomaxn` with -1; otherwise the polling loop runs. -/
def tb_process_waitlist (processes : List (Option Int)) (trace : Nat → SysReap)
    (clock : Nat → Int) (timeout : Int) (infomaxn : Nat) (fuel : Nat) :
    Option WaitlistRun :=
  if infomaxn = 0 then some ⟨-1, [], 0, [], processes⟩
  else tb_process_waitlist_go processes trace clock timeout infomaxn fuel 0

/-! ### Spawning (`tb_process_init`, both build strategies)

The outcome of a spawn as observable by the caller, plus — for the
fork-then-exec build — what happens inside the forked child.  The tbox
assertion macros are not in this file's translation unit; their semantics
is fixed by the library: `tb_assert*_and_check_*` variants always perform
the attached `break`/`return`, a bare `tb_assertf` only traces and aborts in
a debug build and is a no-op in a release build, with no control-flow edge
of its own.  We carry a Boolean `assertsAbort` covering both build modes. -/

/-- Result of `tb_process_init` as observable by the caller: a handle whose
pid is populated (together with whether the child was started suspended), a
null return, or an abort of the calling process. -/
inductive InitResult where
  | ok (pid : Int) (startSuspended : Bool)
  | fail
  | aborted
deriving DecidableEq

/-- Atomic-spawn strategy (`tb_process_init`, lines 136-236, the
`posix_spawnp` build).  Parameters: whether `TB_PROCESS_FLAG_SUSPEND` was
requested; whether the platform defines `POSIX_SPAWN_START_SUSPENDED`
(line 197); whether assertion macros abort — the `tb_assertf(0, ...)` at
line 200 has no `break`, so in a release build control simply continues and
the spawn proceeds without the suspend attribute; whether a FilePath stdout
redirect was requested together with the `posix_spawn_file_actions_addopen`
result (lines 163-167, nonzero breaks out and the init fails); the
`posix_spawnp` return status (lines 210-216, nonzero breaks out); and the
pid it produced (line 219 checks `pid > 0`). -/
def tb_process_init_spawn (suspendRequested hasStartSuspended assertsAbort : Bool)
    (outPathRedirect : Bool) (addopenResult : Int) (spawnResult : Int)
    (childPid : Int) : InitResult :=
  if outPathRedirect ∧ addopenResult ≠ 0 then .fail
  else if suspendRequested ∧ ¬hasStartSuspended ∧ assertsAbort then .aborted
  else if spawnResult ≠ 0 then .fail
  else if childPid ≤ 0 then .fail
  else .ok childPid (suspendRequested && hasStartSuspended)

/-- What the forked child does before (or instead of) replacing its image. -/
inductive ChildOutcome where
  | abortedChild
  | returnedFromInit
  | execed (stdoutOk : Bool) (suspendedAtExec : Bool)
deriving DecidableEq

/-- Fork-then-exec strategy, child branch (`case 0`, lines 271-367), sliced
to the suspend check and a FilePath stdout redirect.  The `tb_assertf` at
line 275 aborts the child in a debug build and is a no-op in a release
build.  `tb_assertf_pass_and_check_break(outfd, ...)` (line 285) breaks only
when `outfd` is zero; `open`'s failure value -1 is nonzero and passes the
check, after which `dup2(-1, STDOUT_FILENO)` fails and leaves stdout
unredirected while the child still goes on to exec.  (A zero `outfd` breaks
out of the switch, fails the `pid > 0` check and makes the child itself
return null from `tb_process_init` to the caller's code.) -/
def tb_process_fork_child (suspendRequested assertsAbort : Bool)
    (outPathRedirect : Bool) (openOutResult : Int) : ChildOutcome :=
  if suspendRequested ∧ assertsAbort then .abortedChild
  else if outPathRedirect ∧ openOutResult = 0 then .returnedFromInit
  else .execed (!outPathRedirect || decide (0 ≤ openOutResult)) false

/-- Fork-then-exec strategy, parent branch (lines 256-391): on `fork`
failure the parent itself calls `_exit(-1)` (line 269); otherwise the
parent only checks `pid > 0` and hands the handle back — it learns nothing
about the child's setup failures. -/
def tb_process_fork_parent (childPid : Int) : InitResult :=
  if childPid = -1 then .aborted
  else if childPid ≤ 0 then .fail
  else .ok childPid false

/-! ### The command tokenizer (`tb_process_init_cmd`, lines 394-529)

Two passes over the command string.  Pass 1 (lines 411-437) copies the
string into a growing scratch buffer, skipping a backslash whose next
character is `"`, `'` or `\` (the next character is then itself examined
against its own successor), and counts whitespace characters to estimate
the argument count.  Pass 2 (lines 455-512) splits the translated buffer:
`"`/`'` toggle the quote state, whitespace outside quotes terminates the
pending argument (a NUL is written over it), and an argument is the raw
buffer substring from its first character to that NUL — quote characters
are not removed. -/

/-- tbox `tb_isspace`: `0x20` and the ASCII range `0x09`-`0x0d`. -/
def tb_isspace (ch : Char) : Bool :=
  ch == ' ' || ch == '\t' || ch == '\n' || ch == '\x0b' || ch == '\x0c' || ch == '\r'

/-- Pass 1, the copy/translate loop (lines 416-435): drop each backslash
immediately followed by `"`, `'` or `\`; the following character is then
reconsidered in the next iteration (so a run of backslashes before a quote
collapses entirely). -/
def cmd_translate : List Char → List Char
  | [] => []
  | c :: rest =>
    if c = '\\' then
      match rest with
      | [] => ['\\']
      | c2 :: rest2 =>
        if c2 = '"' ∨ c2 = '\'' ∨ c2 = '\\' then cmd_translate (c2 :: rest2)
        else '\\' :: cmd_translate (c2 :: rest2)
    else c :: cmd_translate rest

/-- The whitespace estimate of pass 1: `if (tb_isspace(ch)) argv_maxn++`
runs for every character of the original command string. -/
def ws_count (cmd : List Char) : Nat := (cmd.filter (fun ch => tb_isspace ch)).length

/-- Lines 415 and 439-453: the argument-vector capacity.  The estimate
starts at 16 and grows by one per whitespace character; if it fits the
256-entry stack buffer the capacity is 256, otherwise the estimate capped
at `TB_MAXU16` (65535). -/
def argv_capacity (cmd : List Char) : Nat :=
  if 16 + ws_count cmd ≤ 256 then 256 else min (16 + ws_count cmd) 65535

/-- Pass 2, the splitting loop (lines 459-509).  `s` is the quote state
(0 none, 1 single, 2 double); `b` is the pending argument: `none` when no
argument is open, otherwise the characters accumulated since the argument
began.  Mirrors the branch chain of the while loop; an argument receives
every buffer character from its start up to the terminating NUL, including
quote characters and quoted whitespace. -/
def cmd_tokens_go (s : Nat) (b : Option (List Char)) : List Char → List (List Char)
  | [] =>
    match b with
    | some t => [t]
    | none => []
  | ch :: rest =>
    if s = 0 ∧ ch = '"' then cmd_tokens_go 2 (some (b.getD [] ++ [ch])) rest
    else if s = 0 ∧ ch = '\'' then cmd_tokens_go 1 (some (b.getD [] ++ [ch])) rest
    else if (s = 2 ∧ ch = '"') ∨ (s = 1 ∧ ch = '\'') then
      cmd_tokens_go 0 (some (b.getD [] ++ [ch])) rest
    else if s = 0 ∧ tb_isspace ch then
      match b with
      | some t => t :: cmd_tokens_go s none rest
      | none => cmd_tokens_go s none rest
    else cmd_tokens_go s (some (b.getD [] ++ [ch])) rest

/-- The full token sequence scanned by `tb_process_init_cmd`. -/
def cmd_tokens (cmd : List Char) : List (List Char) :=
  cmd_tokens_go 0 none (cmd_translate cmd)

/-- Block size of the growing scratch buffer (the library's path-size
constant; its exact value does not matter to any claim below). -/
def TB_PATH_MAXN : Nat := 4096

/-- The save step `if (i < m - 1) argv[i++] = b` (lines 484 and 505):
arguments found once `i` has reached `m - 1` are scanned but not stored.
Returns the stored arguments and the final `i`. -/
def argv_save (m : Nat) : Nat → List (List Char) → List (List Char) × Nat
  | i, [] => ([], i)
  | i, t :: ts =>
    if i < m - 1 then
      (t :: (argv_save m (i + 1) ts).1, (argv_save m (i + 1) ts).2)
    else argv_save m i ts

/-- The tokenization stage of `tb_process_init_cmd`: `none` when the
function gives up before calling `tb_process_init` — the scratch-buffer
bound `j < maxn` (line 436) fails exactly when the translated length is a
positive multiple of the block size, and the argument-count check
`i < m - 1` (line 512) fails when the saved count reached `m - 1`. -/
def tb_process_init_cmd_argv (cmd : List Char) : Option (List (List Char)) :=
  if (cmd_translate cmd).length ≠ 0 ∧ (cmd_translate cmd).length % TB_PATH_MAXN = 0 then
    none
  else if (argv_save (argv_capacity cmd) 0 (cmd_tokens cmd)).2 < argv_capacity cmd - 1 then
    some (argv_save (argv_capacity cmd) 0 (cmd_tokens cmd)).1
  else none

/-- Spec-side splitter for comparison: split a string into maximal runs of
non-whitespace characters, dropping empty tokens. -/
def simpleSplitGo (b : Option (List Char)) : List Char → List (List Char)
  | [] =>
    match b with
    | some t => [t]
    | none => []
  | ch :: rest =>
    if tb_isspace ch then
      match b with
      | some t => t :: simpleSplitGo none rest
      | none => simpleSplitGo none rest
    else simpleSplitGo (some (b.getD [] ++ [ch])) rest

/-- Whitespace split of a command that uses no quoting and no escapes. -/
def simpleSplit (cmd : List Char) : List (List Char) := simpleSplitGo none cmd

/-! ### Concrete oracles used by the witnesses and counterexamples -/

/-- A child that never becomes reapable. -/
def traceNever : Nat → Reap := fun _ => Reap.notReady

/-- A clock advancing 100 ms per reading. -/
def clockBy100 : Nat → Int := fun k => 100 * (k : Int)

/-- A child already exited with code 3 (status word 768). -/
def traceExit3 : Nat → Reap := fun _ => Reap.reaped 768

/-- A constant clock. -/
def clock0 : Nat → Int := fun _ => 0

/-- System-wide reaps: first pid 10, then the unknown pid 99, then pid 20. -/
def straceUnknown : Nat → SysReap := fun k =>
  if k = 0 then SysReap.reaped 10 (wstatus_of_exit 0)
  else if k = 1 then SysReap.reaped 99 (wstatus_of_exit 0)
  else SysReap.reaped 20 (wstatus_of_exit 0)

/-- System-wide reap of pid 10 exiting with code 0, forever. -/
def straceTen : Nat → SysReap := fun _ => SysReap.reaped 10 (wstatus_of_exit 0)

/-- System-wide reap of pid 6 exiting with status word 0, forever. -/
def straceSix : Nat → SysReap := fun _ => SysReap.reaped 6 0

/-- System-wide reap of pid 7 stopped by signal 19 (SIGSTOP). -/
def straceStopped : Nat → SysReap := fun _ => SysReap.reaped 7 (wstatus_of_stopped 19)

/-- Reap of a child stopped by signal 19 (SIGSTOP), as seen by `wait`. -/
def traceStopped : Nat → Reap := fun _ => Reap.reaped (wstatus_of_stopped 19)

/-- The spec's tokenizer example, `"a b" c\ d`. -/
def cmdExample : List Char := ['"', 'a', ' ', 'b', '"', ' ', 'c', '\\', ' ', 'd']

/-! ## Theorems -/

/-- Full characterization of one run of the polling loop starting at call
index `k`: at least one `waitpid` call is made; every call before the last
one saw `notReady` while the elapsed time was still below the (positive)
timeout; the last call decides the result; every sleep lasts
`min timeout 60`; and a non-positive timeout makes exactly one call and
never sleeps. -/
theorem wait_go_spec (trace : Nat → Reap) (clock : Nat → Int) (timeout : Int)
    (pid : Int) :
    ∀ fuel k r, tb_process_wait_go trace clock timeout pid fuel k = some r →
      k < r.attempts ∧
      (∀ j, k ≤ j → j + 1 < r.attempts →
        trace j = .notReady ∧ 0 < timeout ∧ clock (j + 1) - clock 0 < timeout) ∧
      (match trace (r.attempts - 1) with
       | .err => r.ret = -1 ∧ r.pstatus = none ∧ r.pid = pid
       | .reaped w => r.ret = 1 ∧ r.pstatus = some (reap_status w) ∧ r.pid = 0
       | .notReady => r.ret = 0 ∧ r.pstatus = none ∧ r.pid = pid ∧
           ¬(0 < timeout ∧ clock r.attempts - clock 0 < timeout)) ∧
      (∀ s ∈ r.sleeps, s = min timeout 60) ∧
      (timeout ≤ 0 → r.attempts = k + 1 ∧ r.sleeps = []) := by
  intro fuel
  induction fuel with
  | zero => intro k r h; simp [tb_process_wait_go] at h
  | succ fuel ih =>
    intro k r h
    simp only [tb_process_wait_go] at h
    cases htr : trace k with
    | err =>
      simp only [htr] at h
      injection h with h
      subst h
      refine ⟨Nat.lt_succ_self k, ?_, ?_, ?_, ?_⟩
      · intro j hkj hj; simp at hj; omega
      · simp [htr]
      · intro s hs; simp at hs
      · intro _; exact ⟨rfl, rfl⟩
    | reaped w =>
      simp only [htr] at h
      injection h with h
      subst h
      refine ⟨Nat.lt_succ_self k, ?_, ?_, ?_, ?_⟩
      · intro j hkj hj; simp at hj; omega
      · simp [htr]
      · intro s hs; simp at hs
      · intro _; exact ⟨rfl, rfl⟩
    | notReady =>
      simp only [htr] at h
      by_cases hc : 0 < timeout ∧ clock (k + 1) - clock 0 < timeout
      · rw [if_pos hc] at h
        cases hrec : tb_process_wait_go trace clock timeout pid fuel (k + 1) with
        | none => rw [hrec] at h; exact absurd h (by simp)
        | some r' =>
          rw [hrec] at h
          injection h with h
          subst h
          obtain ⟨ih1, ih2, ih3, ih4, ih5⟩ := ih (k + 1) r' hrec
          refine ⟨Nat.lt_of_succ_lt ih1, ?_, ih3, ?_, ?_⟩
          · intro j hkj hj
            simp only [] at hj
            rcases Nat.eq_or_lt_of_le hkj with rfl | hlt
            · exact ⟨htr, hc.1, hc.2⟩
            · exact ih2 j hlt hj
          · intro s hs
            rcases List.mem_append.mp hs with hs | hs
            · rw [if_pos hc.1] at hs
              simpa using hs
            · exact ih4 s hs
          · intro hle; exact absurd hc.1 (by omega)
      · rw [if_neg hc] at h
        injection h with h
        subst h
        refine ⟨Nat.lt_succ_self k, ?_, ?_, ?_, ?_⟩
        · intro j hkj hj; simp at hj; omega
        · simp only [Nat.add_sub_cancel, htr]
          simp only [true_and, and_true, eq_self_iff_true]
          exact hc
        · intro s hs
          simp only [] at hs
          by_cases ht : 0 < timeout
          · rw [if_pos ht] at hs; simpa using hs
          · rw [if_neg ht] at hs; simp at hs
        · intro hle
          refine ⟨rfl, ?_⟩
          show (if 0 < timeout then [min timeout 60] else []) = []
          rw [if_neg (by omega)]

/-- Claim C1: `tb_process_wait` follows the timeout policy.  A negative
timeout issues a blocking `waitpid` (option word 0) and the single call's
outcome decides the result (the OS blocks inside that call until the child
exits).  A zero timeout performs exactly one non-blocking reap attempt and
returns 0 (timed out) if the child had not exited.  A positive timeout
performs repeated non-blocking attempts separated by sleeps of
`min timeout 60` ms, only starts another attempt while the elapsed
wall-clock time is below `timeout`, returns 0 (timed out) — with the
elapsed time having reached `timeout` — when every attempt saw no exit,
and returns -1 when the deciding reap syscall fails. -/
theorem wait_timeout_policy (trace : Nat → Reap) (clock : Nat → Int)
    (timeout : Int) (pid : Int) (fuel : Nat) (r : WaitRun)
    (h : tb_process_wait trace clock timeout pid fuel = some r) :
    (timeout < 0 →
      wait_options timeout = 0 ∧ r.attempts = 1 ∧ r.sleeps = [] ∧
      (trace 0 = .err → r.ret = -1) ∧
      (∀ w, trace 0 = .reaped w → r.ret = 1 ∧ r.pstatus = some (reap_status w))) ∧
    (timeout = 0 →
      wait_options timeout = WNOHANG + WUNTRACED ∧ r.attempts = 1 ∧ r.sleeps = [] ∧
      (trace 0 = .notReady → r.ret = 0) ∧
      (trace 0 = .err → r.ret = -1) ∧
      (∀ w, trace 0 = .reaped w → r.ret = 1 ∧ r.pstatus = some (reap_status w))) ∧
    (0 < timeout →
      wait_options timeout = WNOHANG + WUNTRACED ∧
      (∀ s ∈ r.sleeps, s = min timeout 60) ∧
      (∀ j, j + 1 < r.attempts →
        trace j = .notReady ∧ clock (j + 1) - clock 0 < timeout) ∧
      ((∀ j, j < r.attempts → trace j = .notReady) →
        r.ret = 0 ∧ timeout ≤ clock r.attempts - clock 0) ∧
      (trace (r.attempts - 1) = .err → r.ret = -1)) := by
  obtain ⟨h1, h2, h3, h4, h5⟩ := wait_go_spec trace clock timeout pid fuel 0 r h
  refine ⟨?_, ?_, ?_⟩
  · intro hneg
    have ha : r.attempts = 1 := by have := (h5 (le_of_lt hneg)).1; omega
    refine ⟨by rw [wait_options, if_pos hneg], ha, (h5 (le_of_lt hneg)).2, ?_, ?_⟩
    · intro he
      have h3' := h3
      rw [ha] at h3'
      rw [show trace (1 - 1) = Reap.err from he] at h3'
      exact h3'.1
    · intro w hw
      have h3' := h3
      rw [ha] at h3'
      rw [show trace (1 - 1) = Reap.reaped w from hw] at h3'
      exact ⟨h3'.1, h3'.2.1⟩
  · intro hz
    have ha : r.attempts = 1 := by have := (h5 (le_of_eq hz)).1; omega
    refine ⟨by rw [wait_options, if_neg (by omega)], ha, (h5 (le_of_eq hz)).2,
      ?_, ?_, ?_⟩
    · intro hn
      have h3' := h3
      rw [ha] at h3'
      rw [show trace (1 - 1) = Reap.notReady from hn] at h3'
      exact h3'.1
    · intro he
      have h3' := h3
      rw [ha] at h3'
      rw [show trace (1 - 1) = Reap.err from he] at h3'
      exact h3'.1
    · intro w hw
      have h3' := h3
      rw [ha] at h3'
      rw [show trace (1 - 1) = Reap.reaped w from hw] at h3'
      exact ⟨h3'.1, h3'.2.1⟩
  · intro hpos
    refine ⟨by rw [wait_options, if_neg (by omega)], h4, ?_, ?_, ?_⟩
    · intro j hj
      obtain ⟨hn, _, hcl⟩ := h2 j (Nat.zero_le j) hj
      exact ⟨hn, hcl⟩
    · intro hall
      have hlast := hall (r.attempts - 1) (by omega)
      have h3' := h3
      rw [hlast] at h3'
      obtain ⟨hr0, -, -, hnot⟩ := h3'
      push_neg at hnot
      exact ⟨hr0, hnot hpos⟩
    · intro he
      have h3' := h3
      rw [he] at h3'
      exact h3'.1

/-- Concrete run backing `wait_timeout_policy`: with a child that never
exits and a clock advancing 100 ms per poll, a 150 ms timeout performs two
non-blocking attempts, sleeps 60 ms after each, and times out once the
elapsed time (200 ms) reaches the bound. -/
theorem wait_timeout_policy_witness :
    tb_process_wait traceNever clockBy100 150 5 10 = some ⟨0, none, 5, 2, [60, 60]⟩ ∧
    wait_options 150 = WNOHANG + WUNTRACED ∧
    (150 : Int) ≤ clockBy100 2 - clockBy100 0 := by
  have h : tb_process_wait traceNever clockBy100 150 5 10 =
      some ⟨0, none, 5, 2, [60, 60]⟩ := by decide
  have hp := wait_timeout_policy traceNever clockBy100 150 5 10
    ⟨0, none, 5, 2, [60, 60]⟩ h
  refine ⟨h, (hp.2.2 (by norm_num)).1, ?_⟩
  exact ((hp.2.2 (by norm_num)).2.2.2.1 (fun j _ => rfl)).2

/-- Claim C2: a successful wait reports the exit status through
`WIFEXITED(status)? WEXITSTATUS(status) : -1`: the OS exit code in the
0-255 range for a child that terminated normally — a child exiting with
code 3 is reported as 3 — and -1 for a child terminated by a signal or
other abnormal means. -/
theorem wait_exit_status (w c sig : Nat) (trace : Nat → Reap) (clock : Nat → Int)
    (pid : Int) (fuel : Nat) (hw : trace 0 = Reap.reaped w) (hsig : sig % 128 ≠ 0) :
    (wifexited w = true →
      reap_status w = (wexitstatus w : Int) ∧
        0 ≤ reap_status w ∧ reap_status w ≤ 255) ∧
    (wifexited w = false → reap_status w = -1) ∧
    reap_status (wstatus_of_exit c) = (c % 256 : Nat) ∧
    reap_status (wstatus_of_exit 3) = 3 ∧
    reap_status (wstatus_of_signal sig) = -1 ∧
    tb_process_wait trace clock (-1) pid (fuel + 1) =
      some ⟨1, some (reap_status w), 0, 1, []⟩ := by
  refine ⟨?_, ?_, ?_, by decide, ?_, ?_⟩
  · intro he
    refine ⟨by rw [reap_status, if_pos he], ?_, ?_⟩
    · rw [reap_status, if_pos he]
      positivity
    · rw [reap_status, if_pos he, wexitstatus]
      have : w / 256 % 256 < 256 := Nat.mod_lt _ (by norm_num)
      omega
  · intro he
    rw [reap_status, if_neg (by simp [he])]
  · have h1 : c % 256 * 256 % 128 = 0 := by omega
    have h2 : c % 256 * 256 / 256 % 256 = c % 256 := by omega
    simp [reap_status, wifexited, wexitstatus, wstatus_of_exit, h1, h2]
  · have h1 : wifexited (wstatus_of_signal sig) = false := by
      simp [wifexited, wstatus_of_signal, hsig]
    rw [reap_status, if_neg (by simp [h1])]
  · simp [tb_process_wait, tb_process_wait_go, hw]

/-- Concrete run backing `wait_exit_status`: status word 768 is a normal
exit with code 3 and is reported as 3; status word 9 is a termination by
signal 9 and is reported as -1. -/
theorem wait_exit_status_witness :
    reap_status (wstatus_of_exit 3) = 3 ∧
    reap_status (wstatus_of_signal 9) = -1 ∧
    tb_process_wait traceExit3 clock0 (-1) 7 1 = some ⟨1, some 3, 0, 1, []⟩ := by
  have h := wait_exit_status 768 5 9 traceExit3 clock0 7 0 rfl (by norm_num)
  refine ⟨h.2.2.2.1, h.2.2.2.2.1, ?_⟩
  have h6 := h.2.2.2.2.2
  rw [show reap_status 768 = 3 by decide] at h6
  exact h6

/-- Claim C10: every non-blocking reap attempt passes `WUNTRACED`, so a
child that is merely stopped — whose status word satisfies `WIFSTOPPED`
but not `WIFEXITED` — is reported by `tb_process_wait` with a non-negative
timeout, and by `tb_process_waitlist`, as a completed reap with status -1,
and `tb_process_wait` clears the handle's pid to 0 although the child has
not terminated. -/
theorem wuntraced_stopped_reported (timeout : Int) (sig : Nat) (p : Int)
    (trace : Nat → Reap) (strace : Nat → SysReap) (clock : Nat → Int)
    (pid : Int) (fuel : Nat)
    (ht : 0 ≤ timeout) (hw : trace 0 = Reap.reaped (wstatus_of_stopped sig))
    (hs : strace 0 = SysReap.reaped p (wstatus_of_stopped sig)) :
    wait_options timeout = WNOHANG + WUNTRACED ∧
    wifstopped (wstatus_of_stopped sig) = true ∧
    wifexited (wstatus_of_stopped sig) = false ∧
    reap_status (wstatus_of_stopped sig) = -1 ∧
    tb_process_wait trace clock timeout pid (fuel + 1) =
      some ⟨1, some (-1), 0, 1, []⟩ ∧
    tb_process_waitlist [some p] strace clock timeout 1 (fuel + 1) =
      some ⟨1, [⟨0, p, -1⟩], 1, [], [some p]⟩ := by
  have hex : wifexited (wstatus_of_stopped sig) = false := by
    simp only [wifexited, wstatus_of_stopped, beq_eq_false_iff_ne, ne_eq]
    omega
  have hrs : reap_status (wstatus_of_stopped sig) = -1 := by
    rw [reap_status, if_neg (by simp [hex])]
  refine ⟨by rw [wait_options, if_neg (by omega)], ?_, hex, hrs, ?_, ?_⟩
  · simp only [wifstopped, wstatus_of_stopped, beq_iff_eq]
    omega
  · simp [tb_process_wait, tb_process_wait_go, hw, hrs]
  · simp [tb_process_waitlist, tb_process_waitlist_go, hs, waitlist_find,
      waitlist_find_go, waitlist_drain, hrs]

/-- Concrete run backing `wuntraced_stopped_reported`: pid 7 stopped by
SIGSTOP (status word 19*256+127) is reported as reaped with status -1 by
both engines even though it has not exited. -/
theorem wuntraced_stopped_reported_witness :
    tb_process_wait traceStopped clock0 0 7 1 = some ⟨1, some (-1), 0, 1, []⟩ ∧
    tb_process_waitlist [some 7] straceStopped clock0 0 1 1 =
      some ⟨1, [⟨0, 7, -1⟩], 1, [], [some 7]⟩ := by
  have h := wuntraced_stopped_reported 0 19 7 traceStopped straceStopped clock0 7 0
    (le_refl 0) rfl rfl
  exact ⟨h.2.2.2.2.1, h.2.2.2.2.2⟩

/-- The linear handle scan never looks past a null entry: appending
anything after a null terminator does not change the scan's result. -/
theorem waitlist_find_go_append_none (rest : List (Option Int)) (r : Int) :
    ∀ (pre : List (Option Int)) (i : Nat),
      waitlist_find_go (pre ++ none :: rest) r i = waitlist_find_go pre r i := by
  intro pre
  induction pre with
  | nil => intro i; rfl
  | cons hd tl ih =>
    intro i
    cases hd with
    | none => rfl
    | some p =>
      simp only [List.cons_append, waitlist_find_go]
      by_cases hp : p = r
      · rw [if_pos hp, if_pos hp]
      · rw [if_neg hp, if_neg hp]
        exact ih (i + 1)

/-- Claim C9: the wait-list scan stops at the first null entry of the
caller's handle array, so a handle placed after a null entry is never
matched: a reap of its pid is treated exactly like a reap of an unknown
process and the event is discarded (here: with a zero timeout the call
returns 0 with no records, leaving every handle untouched). -/
theorem waitlist_null_terminator (pre rest : List (Option Int)) (r a p : Int)
    (w : Nat) (strace : Nat → SysReap) (clock : Nat → Int) (fuel : Nat)
    (hap : a ≠ p) (hs : strace 0 = SysReap.reaped p w) :
    waitlist_find (pre ++ none :: rest) r = waitlist_find pre r ∧
    waitlist_find [some a, none, some p] p = none ∧
    tb_process_waitlist [some a, none, some p] strace clock 0 1 (fuel + 1) =
      some ⟨0, [], 1, [], [some a, none, some p]⟩ := by
  have hfind : waitlist_find [some a, none, some p] p = none := by
    simp [waitlist_find, waitlist_find_go, hap]
  refine ⟨waitlist_find_go_append_none rest r pre 0, hfind, ?_⟩
  simp [tb_process_waitlist, tb_process_waitlist_go, hs, hfind]

/-- Concrete run backing `waitlist_null_terminator`: handle pid 6 sits
after a null entry, so its exit event is discarded. -/
theorem waitlist_null_terminator_witness :
    waitlist_find [some 1, none, some 2] 2 = waitlist_find [some 1] 2 ∧
    waitlist_find [some 5, none, some 6] 6 = none ∧
    tb_process_waitlist [some 5, none, some 6] straceSix clock0 0 1 1 =
      some ⟨0, [], 1, [], [some 5, none, some 6]⟩ := by
  have h := waitlist_null_terminator [some 1] [some 2] 2 5 6 0 straceSix clock0 0
    (by norm_num) rfl
  exact ⟨h.1, h.2.1, h.2.2⟩

/-- The function `tb_process_waitlist` contains no write to any handle: whatever the
trace, the handle array after the call is the one passed in. -/
theorem waitlist_go_procs (processes : List (Option Int)) (strace : Nat → SysReap)
    (clock : Nat → Int) (timeout : Int) (infomaxn : Nat) :
    ∀ fuel k r,
      tb_process_waitlist_go processes strace clock timeout infomaxn fuel k = some r →
      r.procsAfter = processes := by
  intro fuel
  induction fuel with
  | zero => intro k r h; simp [tb_process_waitlist_go] at h
  | succ fuel ih =>
    intro k r h
    simp only [tb_process_waitlist_go] at h
    cases hs : strace k with
    | err =>
      simp only [hs] at h
      injection h with h
      subst h
      rfl
    | notReady =>
      simp only [hs] at h
      by_cases hc : 0 < timeout ∧ clock (k + 1) - clock 0 < timeout
      · rw [if_pos hc] at h
        cases hrec : tb_process_waitlist_go processes strace clock timeout infomaxn
            fuel (k + 1) with
        | none => rw [hrec] at h; exact absurd h (by simp)
        | some r' =>
          rw [hrec] at h
          injection h with h
          subst h
          exact ih (k + 1) r' hrec
      · rw [if_neg hc] at h
        injection h with h
        subst h
        rfl
    | reaped p w =>
      simp only [hs] at h
      cases hf : waitlist_find processes p with
      | some i =>
        simp only [hf] at h
        injection h with h
        subst h
        rfl
      | none =>
        simp only [hf] at h
        by_cases hc : 0 < timeout ∧ clock (k + 1) - clock 0 < timeout
        · rw [if_pos hc] at h
          cases hrec : tb_process_waitlist_go processes strace clock timeout infomaxn
              fuel (k + 1) with
          | none => rw [hrec] at h; exact absurd h (by simp)
          | some r' =>
            rw [hrec] at h
            injection h with h
            subst h
            exact ih (k + 1) r' hrec
        · rw [if_neg hc] at h
          injection h with h
          subst h
          rfl

/-- Claim C3 (amended): a handle's native_id is populated with a positive
pid exactly at successful spawn, and a successful reap through
`tb_process_wait` resets it to the sentinel 0; `tb_process_waitlist`,
however, never writes to any handle, so a handle reaped through the
wait-list engine keeps its old pid. -/
theorem native_id_transitions
    (s1 s2 s3 s4 : Bool) (a1 a2 cp pid : Int) (bsusp : Bool)
    (trace : Nat → Reap) (clock : Nat → Int) (timeout : Int) (fuel : Nat)
    (r : WaitRun) (processes : List (Option Int)) (strace : Nat → SysReap)
    (infomaxn : Nat) (lr : WaitlistRun)
    (hi : tb_process_init_spawn s1 s2 s3 s4 a1 a2 cp = InitResult.ok pid bsusp)
    (hw : tb_process_wait trace clock timeout pid fuel = some r)
    (hl : tb_process_waitlist processes strace clock timeout infomaxn fuel = some lr) :
    0 < pid ∧ (r.ret = 1 → r.pid = 0) ∧ lr.procsAfter = processes := by
  refine ⟨?_, ?_, ?_⟩
  · unfold tb_process_init_spawn at hi
    split_ifs at hi with h1 h2 h3 h4
    rw [InitResult.ok.injEq] at hi
    obtain ⟨h5, -⟩ := hi
    omega
  · intro hr1
    obtain ⟨-, -, h3, -, -⟩ := wait_go_spec trace clock timeout pid fuel 0 r hw
    cases htr : trace (r.attempts - 1) with
    | err =>
      rw [htr] at h3
      have : (-1 : Int) = 1 := h3.1.symm.trans hr1
      exact absurd this (by norm_num)
    | notReady =>
      rw [htr] at h3
      have : (0 : Int) = 1 := h3.1.symm.trans hr1
      exact absurd this (by norm_num)
    | reaped w =>
      rw [htr] at h3
      exact h3.2.2
  · unfold tb_process_waitlist at hl
    by_cases h0 : infomaxn = 0
    · rw [if_pos h0] at hl
      injection hl with hl
      subst hl
      rfl
    · rw [if_neg h0] at hl
      exact waitlist_go_procs processes strace clock timeout infomaxn fuel 0 lr hl

/-- Concrete runs backing `native_id_transitions`: a spawn that produced
pid 42, a wait that reaped it (pid field cleared to 0), and a wait-list
call whose handle array is returned unchanged. -/
theorem native_id_transitions_witness :
    (0 : Int) < 42 ∧ (⟨1, some 3, 0, 1, []⟩ : WaitRun).pid = 0 ∧
    (⟨1, [⟨0, 10, 0⟩], 1, [], [some 10]⟩ : WaitlistRun).procsAfter = [some 10] := by
  have h := native_id_transitions false true false false 0 0 42 42 false
    traceExit3 clock0 (-1) 1 ⟨1, some 3, 0, 1, []⟩ [some 10] straceTen 1
    ⟨1, [⟨0, 10, 0⟩], 1, [], [some 10]⟩ (by decide) (by decide) (by decide)
  exact ⟨h.1, h.2.1 rfl, h.2.2⟩

/-- Claim C3, counterexample: `tb_process_waitlist` reaps and records the
handle with pid 10, yet afterwards the handle's native_id is still 10, not
the reaped sentinel 0 — the wait-list engine does not reset it. -/
theorem waitlist_keeps_native_id :
    tb_process_waitlist [some 10] straceTen clock0 (-1) 1 1 =
      some ⟨1, [⟨0, 10, 0⟩], 1, [], [some 10]⟩ ∧
    ([some (10 : Int)] : List (Option Int)) ≠ [some 0] := by
  exact ⟨by decide, by decide⟩

/-- The drain loop never fills more than the remaining capacity. -/
theorem waitlist_drain_len (processes : List (Option Int)) (strace : Nat → SysReap) :
    ∀ remaining k, (waitlist_drain processes strace remaining k).1.length ≤ remaining := by
  intro remaining
  induction remaining with
  | zero => intro k; simp [waitlist_drain]
  | succ n ih =>
    intro k
    cases hs : strace k with
    | notReady =>
      have hd : (waitlist_drain processes strace (n + 1) k).1 = [] := by
        simp [waitlist_drain, hs]
      rw [hd]
      simp
    | err =>
      cases hf : waitlist_find processes (-1) with
      | none =>
        have hd : (waitlist_drain processes strace (n + 1) k).1 = [] := by
          simp [waitlist_drain, hs, hf]
        rw [hd]
        simp
      | some i =>
        have hd : (waitlist_drain processes strace (n + 1) k).1 =
            ⟨i, -1, -1⟩ :: (waitlist_drain processes strace n (k + 1)).1 := by
          simp [waitlist_drain, hs, hf]
        rw [hd, List.length_cons]
        exact Nat.succ_le_succ (ih (k + 1))
    | reaped p w =>
      cases hf : waitlist_find processes p with
      | none =>
        have hd : (waitlist_drain processes strace (n + 1) k).1 = [] := by
          simp [waitlist_drain, hs, hf]
        rw [hd]
        simp
      | some i =>
        have hd : (waitlist_drain processes strace (n + 1) k).1 =
            ⟨i, p, reap_status w⟩ :: (waitlist_drain processes strace n (k + 1)).1 := by
          simp [waitlist_drain, hs, hf]
        rw [hd, List.length_cons]
        exact Nat.succ_le_succ (ih (k + 1))

/-- Every record appended by the drain loop points back at the scanned
position of the matching handle. -/
theorem waitlist_drain_mem (processes : List (Option Int)) (strace : Nat → SysReap) :
    ∀ remaining k info, info ∈ (waitlist_drain processes strace remaining k).1 →
      waitlist_find processes info.pid = some info.index := by
  intro remaining
  induction remaining with
  | zero => intro k info h; simp [waitlist_drain] at h
  | succ n ih =>
    intro k info h
    simp only [waitlist_drain] at h
    cases hs : strace k with
    | notReady => simp only [hs] at h; simp at h
    | err =>
      simp only [hs] at h
      cases hf : waitlist_find processes (-1) with
      | some i =>
        simp only [hf] at h
        simp at h
        rcases h with rfl | h
        · exact hf
        · exact ih (k + 1) info h
      | none => simp only [hf] at h; simp at h
    | reaped p w =>
      simp only [hs] at h
      cases hf : waitlist_find processes p with
      | some i =>
        simp only [hf] at h
        simp at h
        rcases h with rfl | h
        · exact hf
        · exact ih (k + 1) info h
      | none => simp only [hf] at h; simp at h

/-- When the drain loop stops before exhausting the capacity, the outcome
it stopped on was not a reap of a handle in the set. -/
theorem waitlist_drain_stop (processes : List (Option Int)) (strace : Nat → SysReap) :
    ∀ remaining k, (waitlist_drain processes strace remaining k).1.length < remaining →
      drain_stops processes
        (strace (k + (waitlist_drain processes strace remaining k).1.length)) := by
  intro remaining
  induction remaining with
  | zero => intro k h; simp at h
  | succ n ih =>
    intro k h
    cases hs : strace k with
    | notReady =>
      have hd : (waitlist_drain processes strace (n + 1) k).1 = [] := by
        simp [waitlist_drain, hs]
      rw [hd, List.length_nil, Nat.add_zero, hs]
      trivial
    | err =>
      cases hf : waitlist_find processes (-1) with
      | none =>
        have hd : (waitlist_drain processes strace (n + 1) k).1 = [] := by
          simp [waitlist_drain, hs, hf]
        rw [hd, List.length_nil, Nat.add_zero, hs]
        exact hf
      | some i =>
        have hd : (waitlist_drain processes strace (n + 1) k).1 =
            ⟨i, -1, -1⟩ :: (waitlist_drain processes strace n (k + 1)).1 := by
          simp [waitlist_drain, hs, hf]
        rw [hd] at h ⊢
        rw [List.length_cons] at h ⊢
        have h' : (waitlist_drain processes strace n (k + 1)).1.length < n := by omega
        have harith : k + ((waitlist_drain processes strace n (k + 1)).1.length + 1) =
            (k + 1) + (waitlist_drain processes strace n (k + 1)).1.length := by omega
        rw [harith]
        exact ih (k + 1) h'
    | reaped p w =>
      cases hf : waitlist_find processes p with
      | none =>
        have hd : (waitlist_drain processes strace (n + 1) k).1 = [] := by
          simp [waitlist_drain, hs, hf]
        rw [hd, List.length_nil, Nat.add_zero, hs]
        exact hf
      | some i =>
        have hd : (waitlist_drain processes strace (n + 1) k).1 =
            ⟨i, p, reap_status w⟩ :: (waitlist_drain processes strace n (k + 1)).1 := by
          simp [waitlist_drain, hs, hf]
        rw [hd] at h ⊢
        rw [List.length_cons] at h ⊢
        have h' : (waitlist_drain processes strace n (k + 1)).1.length < n := by omega
        have harith : k + ((waitlist_drain processes strace n (k + 1)).1.length + 1) =
            (k + 1) + (waitlist_drain processes strace n (k + 1)).1.length := by omega
        rw [harith]
        exact ih (k + 1) h'

/-- A reap matching a handle is always recorded while capacity is left. -/
theorem waitlist_drain_progress (processes : List (Option Int))
    (strace : Nat → SysReap) (remaining k : Nat) (p : Int) (w : Nat) (i : Nat)
    (hs : strace k = SysReap.reaped p w)
    (hf : waitlist_find processes p = some i) (hr : 0 < remaining) :
    (waitlist_drain processes strace remaining k).1 =
      ⟨i, p, reap_status w⟩ ::
        (waitlist_drain processes strace (remaining - 1) (k + 1)).1 := by
  cases remaining with
  | zero => omega
  | succ n => simp [waitlist_drain, hs, hf]

/-- The handle scan returns the position of the first handle carrying the
searched pid. -/
theorem waitlist_find_go_get (r : Int) :
    ∀ (ps : List (Option Int)) (i j : Nat), waitlist_find_go ps r i = some j →
      i ≤ j ∧ ps.get? (j - i) = some (some r) := by
  intro ps
  induction ps with
  | nil => intro i j h; simp [waitlist_find_go] at h
  | cons hd tl ih =>
    intro i j h
    cases hd with
    | none => simp [waitlist_find_go] at h
    | some p =>
      simp only [waitlist_find_go] at h
      by_cases hp : p = r
      · rw [if_pos hp] at h
        injection h with h
        subst h
        subst hp
        exact ⟨le_refl i, by simp⟩
      · rw [if_neg hp] at h
        obtain ⟨hij, hget⟩ := ih (i + 1) j h
        refine ⟨by omega, ?_⟩
        have hji : j - i = (j - (i + 1)) + 1 := by omega
        rw [hji]
        simpa using hget

/-- Claim C7 (amended): once a reap matches a handle, the engine records it
and keeps draining additional already-exited children non-blockingly (no
sleep) until the caller's capacity is reached, no more children are
immediately reapable, or a reaped id matches no handle in the caller's set
— such an unmatched reap is discarded without being recorded and also ends
the drain; every recorded WaitInfo carries the index of the matched handle
in the caller's array. -/
theorem waitlist_drain_policy (processes : List (Option Int))
    (strace : Nat → SysReap) (clock : Nat → Int) (timeout : Int)
    (infomaxn remaining k fuel : Nat) (p : Int) (w : Nat) (i : Nat)
    (hs : strace k = SysReap.reaped p w)
    (hf : waitlist_find processes p = some i) :
    (tb_process_waitlist_go processes strace clock timeout infomaxn (fuel + 1) k =
      some ⟨(1 + (waitlist_drain processes strace (infomaxn - 1) (k + 1)).1.length : Nat),
        ⟨i, p, reap_status w⟩ :: (waitlist_drain processes strace (infomaxn - 1) (k + 1)).1,
        (waitlist_drain processes strace (infomaxn - 1) (k + 1)).2, [], processes⟩) ∧
    (waitlist_drain processes strace remaining k).1.length ≤ remaining ∧
    (∀ info ∈ (waitlist_drain processes strace remaining k).1,
      waitlist_find processes info.pid = some info.index) ∧
    (∀ q idx, waitlist_find processes q = some idx →
      processes.get? idx = some (some q)) ∧
    ((waitlist_drain processes strace remaining k).1.length < remaining →
      drain_stops processes
        (strace (k + (waitlist_drain processes strace remaining k).1.length))) ∧
    (0 < remaining →
      (waitlist_drain processes strace remaining k).1 =
        ⟨i, p, reap_status w⟩ ::
          (waitlist_drain processes strace (remaining - 1) (k + 1)).1) := by
  refine ⟨?_, waitlist_drain_len processes strace remaining k,
    fun info hmem => waitlist_drain_mem processes strace remaining k info hmem,
    ?_, waitlist_drain_stop processes strace remaining k,
    fun hr => waitlist_drain_progress processes strace remaining k p w i hs hf hr⟩
  · simp [tb_process_waitlist_go, hs, hf]
  · intro q idx hq
    have hg := waitlist_find_go_get q processes 0 idx hq
    simpa using hg.2

/-- Concrete run backing `waitlist_drain_policy`: pid 10's exit is matched
at index 0 and recorded; with capacity 1 the drain adds nothing more. -/
theorem waitlist_drain_policy_witness :
    tb_process_waitlist_go [some 10] straceTen clock0 0 1 1 0 =
      some ⟨1, [⟨0, 10, 0⟩], 1, [], [some 10]⟩ ∧
    ([some (10 : Int)] : List (Option Int)).get? 0 = some (some 10) := by
  have h := waitlist_drain_policy [some 10] straceTen clock0 0 1 1 0 0 10
    (wstatus_of_exit 0) 0 rfl (by decide)
  refine ⟨?_, h.2.2.2.1 10 0 (by decide)⟩
  rw [h.1]
  decide

/-- Claim C7, counterexample: handles {10, 20}, capacity 3.  After the
first match (pid 10, index 0) the next ready reap is the unknown pid 99;
the code stops the drain and returns a single record even though the
capacity was not reached and pid 20 — a handle of the set — was immediately
reapable next, contradicting "drains until capacity is reached or no more
children are immediately reapable". -/
theorem waitlist_drain_stops_on_unknown :
    tb_process_waitlist [some 10, some 20] straceUnknown clock0 0 3 1 =
      some ⟨1, [⟨0, 10, 0⟩], 2, [], [some 10, some 20]⟩ ∧
    straceUnknown 2 = SysReap.reaped 20 (wstatus_of_exit 0) ∧
    waitlist_find [some 10, some 20] 20 = some 1 ∧
    (1 : Nat) < 3 := by
  exact ⟨by decide, by decide, by decide, by decide⟩

/-- Pass 1 is the identity on a command containing no backslash. -/
theorem cmd_translate_no_backslash :
    ∀ cmd : List Char, (∀ x ∈ cmd, x ≠ '\\') → cmd_translate cmd = cmd := by
  intro cmd
  induction cmd with
  | nil => intro _; rfl
  | cons c rest ih =>
    intro h
    have hc : c ≠ '\\' := h c (List.mem_cons_self c rest)
    have hrest := ih (fun x hx => h x (List.mem_cons_of_mem c hx))
    cases rest with
    | nil => simp [cmd_translate, hc]
    | cons c2 rest2 =>
      simp only [cmd_translate]
      rw [if_neg hc, hrest]

/-- On a command free of quote characters, pass 2 is the plain whitespace
splitter. -/
theorem cmd_tokens_go_no_quotes :
    ∀ (l : List Char), (∀ x ∈ l, x ≠ '"' ∧ x ≠ '\'') →
      ∀ b, cmd_tokens_go 0 b l = simpleSplitGo b l := by
  intro l
  induction l with
  | nil => intro _ b; rfl
  | cons ch rest ih =>
    intro h b
    have hq : ch ≠ '"' := (h ch (List.mem_cons_self ch rest)).1
    have hq' : ch ≠ '\'' := (h ch (List.mem_cons_self ch rest)).2
    have hrest : ∀ x ∈ rest, x ≠ '"' ∧ x ≠ '\'' :=
      fun x hx => h x (List.mem_cons_of_mem ch hx)
    cases b with
    | some t =>
      by_cases hsp : tb_isspace ch = true <;>
        simp [cmd_tokens_go, simpleSplitGo, hq, hq', hsp, ih hrest]
    | none =>
      by_cases hsp : tb_isspace ch = true <;>
        simp [cmd_tokens_go, simpleSplitGo, hq, hq', hsp, ih hrest]

/-- Claim C5 (amended): pass 1 removes a backslash immediately preceding
`"`, `'` or `\` regardless of any quote state (the following character is
then itself reconsidered against its own successor); pass 2 splits on
whitespace outside quotes with quoted whitespace kept literal, but the
quote characters themselves are retained in the produced arguments; a
command free of quote and backslash characters splits exactly into its
maximal whitespace-free runs; and tokenizing `"a b" c\ d` yields the three
arguments `"a b"` (quotes included), `c\` and `d`. -/
theorem tokenizer_behaviour (c : Char) (rest cmd : List Char)
    (hplain : ∀ x ∈ cmd, x ≠ '"' ∧ x ≠ '\'' ∧ x ≠ '\\') :
    (cmd_translate ('\\' :: c :: rest) =
      if c = '"' ∨ c = '\'' ∨ c = '\\' then cmd_translate (c :: rest)
      else '\\' :: cmd_translate (c :: rest)) ∧
    cmd_tokens cmd = simpleSplit cmd ∧
    cmd_tokens ['"', 'x', ' ', 'y', '"'] = [['"', 'x', ' ', 'y', '"']] ∧
    cmd_tokens cmdExample = [['"', 'a', ' ', 'b', '"'], ['c', '\\'], ['d']] := by
  refine ⟨?_, ?_, by decide, by decide⟩
  · rfl
  · unfold cmd_tokens simpleSplit
    rw [cmd_translate_no_backslash cmd (fun x hx => (hplain x hx).2.2)]
    exact cmd_tokens_go_no_quotes cmd
      (fun x hx => ⟨(hplain x hx).1, (hplain x hx).2.1⟩) none

/-- Concrete instances backing `tokenizer_behaviour`: a plain command
splits on whitespace, and a backslash before a double quote is removed even
though no quote state is open. -/
theorem tokenizer_behaviour_witness :
    cmd_tokens ['e', 'c', 'h', 'o', ' ', 'h', 'i'] =
      simpleSplit ['e', 'c', 'h', 'o', ' ', 'h', 'i'] ∧
    cmd_translate ['\\', '"'] = cmd_translate ['"'] := by
  have h := tokenizer_behaviour '"' [] ['e', 'c', 'h', 'o', ' ', 'h', 'i'] (by decide)
  refine ⟨h.2.1, ?_⟩
  simpa using h.1

/-- Claim C5, counterexample: tokenizing `"a b" c\ d` does not yield
`["a b", "c d"]` — the quote characters are kept in the first argument and
`\ ` (backslash space) is not an escape, so the splitting produces the
three arguments `"a b"`, `c\` and `d`. -/
theorem tokenizer_example_refuted :
    tb_process_init_cmd_argv cmdExample =
      some [['"', 'a', ' ', 'b', '"'], ['c', '\\'], ['d']] ∧
    cmd_tokens cmdExample ≠ [['a', ' ', 'b'], ['c', ' ', 'd']] := by
  exact ⟨by decide, by decide⟩

/-- As long as the save counter stays below `m - 1`, every scanned token is
stored and the counter ends at the token count. -/
theorem argv_save_all (m : Nat) :
    ∀ (ts : List (List Char)) (i : Nat), i + ts.length ≤ m - 1 →
      argv_save m i ts = (ts, i + ts.length) := by
  intro ts
  induction ts with
  | nil => intro i h; simp [argv_save]
  | cons t ts ih =>
    intro i h
    rw [List.length_cons] at h
    simp only [argv_save]
    rw [if_pos (by omega), ih (i + 1) (by omega)]
    rw [List.length_cons]
    congr 1
    omega

/-- Once the token count reaches the capacity bound, the save counter
sticks at `m - 1` — which is exactly what the final
`tb_assertf_and_check_break(i < m - 1, ...)` rejects. -/
theorem argv_save_overflow (m : Nat) :
    ∀ (ts : List (List Char)) (i : Nat), i ≤ m - 1 → m - 1 ≤ i + ts.length →
      (argv_save m i ts).2 = m - 1 := by
  intro ts
  induction ts with
  | nil =>
    intro i h1 h2
    rw [List.length_nil] at h2
    show i = m - 1
    omega
  | cons t ts ih =>
    intro i h1 h2
    rw [List.length_cons] at h2
    simp only [argv_save]
    by_cases hi : i < m - 1
    · rw [if_pos hi]
      exact ih (i + 1) (by omega) (by omega)
    · rw [if_neg hi]
      exact ih i (by omega) (by omega)

/-- Claim C6: the argument-vector capacity grows from the fixed estimate 16
by one per whitespace character (floored by the 256-entry stack buffer) and
is capped at the hard maximum 65535; a command whose token count reaches
the capacity bound makes `tb_process_init_cmd` give up before spawning, and
on success the argument vector is the full token sequence — never a
silently truncated one. -/
theorem init_cmd_capacity (cmd : List Char) :
    argv_capacity cmd =
      (if 16 + ws_count cmd ≤ 256 then 256 else min (16 + ws_count cmd) 65535) ∧
    256 ≤ argv_capacity cmd ∧
    argv_capacity cmd ≤ 65535 ∧
    (argv_capacity cmd - 1 ≤ (cmd_tokens cmd).length →
      tb_process_init_cmd_argv cmd = none) ∧
    (∀ argv, tb_process_init_cmd_argv cmd = some argv → argv = cmd_tokens cmd) := by
  refine ⟨rfl, ?_, ?_, ?_, ?_⟩
  · unfold argv_capacity
    split_ifs with h
    · omega
    · exact le_min (by omega) (by omega)
  · unfold argv_capacity
    split_ifs with h
    · omega
    · exact min_le_right _ _
  · intro hlen
    unfold tb_process_init_cmd_argv
    split_ifs with hb hsv
    · rfl
    · exfalso
      have hov := argv_save_overflow (argv_capacity cmd) (cmd_tokens cmd) 0
        (by omega) (by omega)
      omega
    · rfl
  · intro argv hargv
    unfold tb_process_init_cmd_argv at hargv
    split_ifs at hargv with hb hsv
    injection hargv with hargv
    subst hargv
    by_cases hl : (cmd_tokens cmd).length ≤ argv_capacity cmd - 1
    · rw [argv_save_all (argv_capacity cmd) (cmd_tokens cmd) 0 (by omega)]
    · exfalso
      have hov := argv_save_overflow (argv_capacity cmd) (cmd_tokens cmd) 0
        (by omega) (by omega)
      omega

/-- Concrete run backing `init_cmd_capacity`: `ls -l` tokenizes to its two
full arguments. -/
theorem init_cmd_capacity_witness :
    tb_process_init_cmd_argv ['l', 's', ' ', '-', 'l'] =
      some [['l', 's'], ['-', 'l']] ∧
    [['l', 's'], ['-', 'l']] = cmd_tokens ['l', 's', ' ', '-', 'l'] := by
  have h := init_cmd_capacity ['l', 's', ' ', '-', 'l']
  exact ⟨by decide, h.2.2.2.2 [['l', 's'], ['-', 'l']] (by decide)⟩

/-- Claim C4 (code bug): requesting start-suspended where the capability is
missing is guarded only by a bare `tb_assertf` with no failure edge.  In a
release build the atomic-spawn path goes on to spawn the child un-suspended
and the fork path execs the child running, both handing a live handle back;
in a debug build the assertion aborts the whole process (atomic path),
resp. the forked child while the parent still gets a handle.  In no
configuration does `tb_process_init` fail cleanly with an
unsupported-capability report and no running child. -/
theorem suspend_unsupported_not_failed :
    tb_process_init_spawn true false false false 0 0 42 = InitResult.ok 42 false ∧
    tb_process_init_spawn true false true false 0 0 42 = InitResult.aborted ∧
    tb_process_fork_child true false false 0 = ChildOutcome.execed true false ∧
    tb_process_fork_child true true false 0 = ChildOutcome.abortedChild ∧
    tb_process_fork_parent 42 = InitResult.ok 42 false := by
  exact ⟨by decide, by decide, by decide, by decide, by decide⟩

/-- Claim C8 (code bug): in the atomic-spawn strategy a redirect-open
failure does fail the spawn with no handle (whether the file-action cannot
be recorded or `posix_spawnp` itself reports the failed open), but in the
fork-then-exec strategy `open`'s failure value -1 passes the
`tb_assertf_pass_and_check_break(outfd, ...)` truthiness check, so the
child execs with stdout silently unredirected and the parent returns a
live handle; only the pathological descriptor 0 makes the child break out
— and then the forked child returns null from init into the caller's code
instead of terminating. -/
theorem redirect_open_failure_not_reported :
    tb_process_init_spawn false false false true 2 0 0 = InitResult.fail ∧
    tb_process_init_spawn false false false true 0 2 0 = InitResult.fail ∧
    tb_process_fork_child false false true (-1) = ChildOutcome.execed false false ∧
    tb_process_fork_child false true true (-1) = ChildOutcome.execed false false ∧
    tb_process_fork_parent 42 = InitResult.ok 42 false ∧
    tb_process_fork_child false false true 0 = ChildOutcome.returnedFromInit := by
  exact ⟨by decide, by decide, by decide, by decide, by decide, by decide⟩

end Tbox
